import Mathlib

/- Verification of the StructuralDecoder core extracted by the specification from
the decoder-based API-calling snippets (apiCalls.ts with its object/number/string/array
decoders, and the ReasonML Json.Decode usage). The decoder implementation itself is a
library dependency and is not part of the repository sources, so the operational
definitions below follow the specification text of the decode contract. -/
namespace StructuralDecoder

/-- Modelled from the spec: the primitive kinds of a ShapeDescriptor,
kind in the set containing number, string and boolean. The decoder library
providing these (json-type-validation) is not among the repository sources. -/
inductive PrimKind where
  | number
  | string
  | boolean
deriving DecidableEq

/-- Modelled from the spec: a declarative description of expected structure.
The object variant holds a mapping from field name to ShapeDescriptor, encoded
as an association list; a genuine mapping has pairwise distinct keys, which the
predicate ShapeDescriptor.WF below makes explicit. -/
inductive ShapeDescriptor where
  | primitive (kind : PrimKind)
  | objectShape (fields : List (String × ShapeDescriptor))
  | arrayShape (elementShape : ShapeDescriptor)

/-- Modelled from the spec: the raw decoded-JSON value, one of number, string,
boolean, null, ordered sequence, or mapping from string to value. -/
inductive UntypedValue where
  | num (n : Int)
  | str (s : String)
  | boolean (b : Bool)
  | null
  | arr (elems : List UntypedValue)
  | obj (entries : List (String × UntypedValue))

/-- Modelled from the spec: one segment of a field path, a string field name or
a numeric array index. -/
inductive PathSeg where
  | field (name : String)
  | index (i : Nat)
deriving DecidableEq

/-- Modelled from the spec: a ValidationError carries a field path from root to the
failing node, the expected kind or field name, and the actual kind or the word absent. -/
structure ValidationError where
  path : List PathSeg
  expected : String
  actual : String
deriving DecidableEq

/-- Runtime kind of an UntypedValue, as the string a dynamic type test reports. -/
def UntypedValue.kind : UntypedValue → String
  | .num _ => "number"
  | .str _ => "string"
  | .boolean _ => "boolean"
  | .null => "null"
  | .arr _ => "array"
  | .obj _ => "object"

/-- Name of a primitive kind, used in error messages and kind comparisons. -/
def PrimKind.kindName : PrimKind → String
  | .number => "number"
  | .string => "string"
  | .boolean => "boolean"

/-- Exact-key lookup in the entries of a mapping value. -/
def lookupField : List (String × UntypedValue) → String → Option UntypedValue
  | [], _ => none
  | (k, v) :: rest, name => if k = name then some v else lookupField rest name

/-- Reattach an error produced while decoding a sub-value under its path segment. -/
def ValidationError.nest (seg : PathSeg) (e : ValidationError) : ValidationError :=
  { e with path := seg :: e.path }

mutual

/-- Modelled from the spec: decode value against shape. Primitive shapes compare
runtime kinds; object shapes require a mapping and decode each declared field by
exact key match, failing with an absent error on a missing key, short-circuiting
on the first sub-field failure and ignoring undeclared fields; array shapes
require an ordered sequence and decode each element with its numeric index
appended to the path, short-circuiting on the first element failure. -/
def decode (value : UntypedValue) (shape : ShapeDescriptor) :
    Except ValidationError UntypedValue :=
  match shape with
  | .primitive kind =>
      if value.kind = kind.kindName then .ok value
      else .error ⟨[], kind.kindName, value.kind⟩
  | .objectShape fields =>
      match value with
      | .obj entries =>
          match decodeFields entries fields with
          | .ok ws => .ok (.obj ws)
          | .error e => .error e
      | _ => .error ⟨[], ("object"), value.kind⟩
  | .arrayShape elementShape =>
      match value with
      | .arr elems =>
          match decodeElems elementShape elems 0 with
          | .ok ws => .ok (.arr ws)
          | .error e => .error e
      | _ => .error ⟨[], ("array"), value.kind⟩
termination_by (sizeOf shape, 0)

/-- Decode the declared fields of an object shape, in declaration order. -/
def decodeFields (entries : List (String × UntypedValue))
    (fields : List (String × ShapeDescriptor)) :
    Except ValidationError (List (String × UntypedValue)) :=
  match fields with
  | [] => .ok []
  | (name, fieldShape) :: rest =>
      match lookupField entries name with
      | none => .error ⟨[.field name], name, ("absent")⟩
      | some v =>
          match decode v fieldShape with
          | .error e => .error (e.nest (.field name))
          | .ok w =>
              match decodeFields entries rest with
              | .error e => .error e
              | .ok ws => .ok ((name, w) :: ws)
termination_by (sizeOf fields, 0)

/-- Decode the elements of an array in order, tracking the current index. -/
def decodeElems (elementShape : ShapeDescriptor) (elems : List UntypedValue)
    (startIndex : Nat) : Except ValidationError (List UntypedValue) :=
  match elems with
  | [] => .ok []
  | v :: rest =>
      match decode v elementShape with
      | .error e => .error (e.nest (.index startIndex))
      | .ok w =>
          match decodeElems elementShape rest (startIndex + 1) with
          | .error e => .error e
          | .ok ws => .ok (w :: ws)
termination_by (sizeOf elementShape, elems.length + 1)

end

mutual

/-- Modelled from the spec: structural conformance of an UntypedValue to a
ShapeDescriptor, the hypothesis of the round-trip fidelity property. A value
conforms to a primitive shape when its runtime kind matches, to an object shape
when every declared field is present and conforms (extra fields unconstrained),
and to an array shape when every element conforms. -/
def conforms (value : UntypedValue) (shape : ShapeDescriptor) : Bool :=
  match shape with
  | .primitive kind => value.kind = kind.kindName
  | .objectShape fields =>
      match value with
      | .obj entries => conformsFields entries fields
      | _ => false
  | .arrayShape elementShape =>
      match value with
      | .arr elems => conformsElems elementShape elems
      | _ => false
termination_by (sizeOf shape, 0)

/-- Conformance of a mapping to the declared fields of an object shape. -/
def conformsFields (entries : List (String × UntypedValue))
    (fields : List (String × ShapeDescriptor)) : Bool :=
  match fields with
  | [] => true
  | (name, fieldShape) :: rest =>
      (match lookupField entries name with
       | some v => conforms v fieldShape
       | none => false) && conformsFields entries rest
termination_by (sizeOf fields, 0)

/-- Conformance of every element of a sequence to the element shape. -/
def conformsElems (elementShape : ShapeDescriptor) (elems : List UntypedValue) : Bool :=
  match elems with
  | [] => true
  | v :: rest => conforms v elementShape && conformsElems elementShape rest
termination_by (sizeOf elementShape, elems.length + 1)

end

/-- Pairwise distinctness of a list of field names. -/
def noDupKeys : List String → Bool
  | [] => true
  | k :: rest => !(rest.contains k) && noDupKeys rest

mutual

/-- Well-formedness of a ShapeDescriptor: every object shape is a genuine mapping,
so its association-list encoding has pairwise distinct field names. The spec
states shapes are caller-supplied and assumed well-formed. -/
def ShapeDescriptor.WF : ShapeDescriptor → Bool
  | .primitive _ => true
  | .objectShape fields => noDupKeys (fields.map Prod.fst) && fieldsWF fields
  | .arrayShape elementShape => elementShape.WF
termination_by shape => sizeOf shape

/-- Well-formedness of every declared field shape. -/
def fieldsWF : List (String × ShapeDescriptor) → Bool
  | [] => true
  | (_, fieldShape) :: rest => fieldShape.WF && fieldsWF rest
termination_by fields => sizeOf fields

end

mutual

/-- Modelled from the spec: the round-trip fidelity relation. Under a primitive
shape the decoded value is the input itself; under an object shape every declared
field of the result equals the corresponding field of the input; under an array
shape the elements correspond pointwise. -/
def valueUnchanged (shape : ShapeDescriptor) (v w : UntypedValue) : Prop :=
  match shape with
  | .primitive _ => w = v
  | .objectShape fields =>
      match v, w with
      | .obj entries, .obj dentries => fieldsUnchanged fields entries dentries
      | _, _ => False
  | .arrayShape elementShape =>
      match v, w with
      | .arr elems, .arr delems => elemsUnchanged elementShape elems delems
      | _, _ => False
termination_by (sizeOf shape, 0)

/-- Fieldwise round-trip fidelity for the declared fields of an object shape. -/
def fieldsUnchanged (fields : List (String × ShapeDescriptor))
    (entries dentries : List (String × UntypedValue)) : Prop :=
  match fields with
  | [] => True
  | (name, fieldShape) :: rest =>
      (∃ v w, lookupField entries name = some v ∧ lookupField dentries name = some w ∧
        valueUnchanged fieldShape v w) ∧
      fieldsUnchanged rest entries dentries
termination_by (sizeOf fields, 0)

/-- Pointwise round-trip fidelity for the elements of an array. -/
def elemsUnchanged (elementShape : ShapeDescriptor) (elems delems : List UntypedValue) : Prop :=
  match elems, delems with
  | [], [] => True
  | v :: vrest, w :: wrest =>
      valueUnchanged elementShape v w ∧ elemsUnchanged elementShape vrest wrest
  | _, _ => False
termination_by (sizeOf elementShape, elems.length + 1)

end

theorem sizeOf_shape_pos (shape : ShapeDescriptor) : 0 < sizeOf shape := by
  cases shape <;> simp_arith

theorem sizeOf_mem_fields_lt {name : String} {s : ShapeDescriptor}
    {fields : List (String × ShapeDescriptor)} (h : (name, s) ∈ fields) :
    sizeOf s < sizeOf (ShapeDescriptor.objectShape fields) := by
  have h1 := List.sizeOf_lt_of_mem h
  have h2 : sizeOf (ShapeDescriptor.objectShape fields) = 1 + sizeOf fields := by simp
  have h3 : sizeOf (name, s) = 1 + sizeOf name + sizeOf s := by simp
  omega

theorem sizeOf_elem_shape_lt (elementShape : ShapeDescriptor) :
    sizeOf elementShape < sizeOf (ShapeDescriptor.arrayShape elementShape) := by
  simp_arith

theorem lookupField_cons_self (k : String) (v : UntypedValue)
    (rest : List (String × UntypedValue)) : lookupField ((k, v) :: rest) k = some v := by
  simp [lookupField]

theorem lookupField_cons_ne {k name : String} (hne : k ≠ name) (v : UntypedValue)
    (rest : List (String × UntypedValue)) :
    lookupField ((k, v) :: rest) name = lookupField rest name := by
  simp [lookupField, hne]

theorem decodeFields_skip (k : String) (w : UntypedValue)
    (ws : List (String × UntypedValue)) :
    ∀ fields : List (String × ShapeDescriptor), k ∉ fields.map Prod.fst →
    decodeFields ((k, w) :: ws) fields = decodeFields ws fields := by
  intro fields
  induction fields with
  | nil => intro _; simp [decodeFields]
  | cons head rest ih =>
      obtain ⟨name, fieldShape⟩ := head
      intro h
      have hne : k ≠ name := by
        intro hEq; exact h (by simp [hEq])
      have hrest : k ∉ rest.map Prod.fst := by
        intro hm; exact h (by simp [hm])
      simp only [decodeFields, lookupField_cons_ne hne]
      cases h1 : lookupField ws name with
      | none => rfl
      | some v =>
          cases h2 : decode v fieldShape with
          | error e => simp [h2]
          | ok w2 => simp [h2, ih hrest]

theorem fieldsUnchanged_skip (k : String) (w : UntypedValue)
    (entries ws : List (String × UntypedValue)) :
    ∀ fields : List (String × ShapeDescriptor), k ∉ fields.map Prod.fst →
    (fieldsUnchanged fields entries ((k, w) :: ws) ↔ fieldsUnchanged fields entries ws) := by
  intro fields
  induction fields with
  | nil => intro _; simp [fieldsUnchanged]
  | cons head rest ih =>
      obtain ⟨name, fieldShape⟩ := head
      intro h
      have hne : k ≠ name := by
        intro hEq; exact h (by simp [hEq])
      have hrest : k ∉ rest.map Prod.fst := by
        intro hm; exact h (by simp [hm])
      simp only [fieldsUnchanged, lookupField_cons_ne hne, ih hrest]

theorem decodeFields_main :
    ∀ fields : List (String × ShapeDescriptor),
    (∀ name s, (name, s) ∈ fields → s.WF = true → ∀ v w, decode v s = Except.ok w →
      valueUnchanged s v w ∧ decode w s = Except.ok w ∧ conforms v s = true) →
    ∀ entries dentries, noDupKeys (fields.map Prod.fst) = true → fieldsWF fields = true →
    decodeFields entries fields = Except.ok dentries →
    fieldsUnchanged fields entries dentries ∧
      decodeFields dentries fields = Except.ok dentries ∧
      conformsFields entries fields = true := by
  intro fields
  induction fields with
  | nil =>
      intro _ entries dentries _ _ hdec
      simp [decodeFields] at hdec
      subst hdec
      simp [fieldsUnchanged, decodeFields, conformsFields]
  | cons head rest ih =>
      obtain ⟨name, fieldShape⟩ := head
      intro IH entries dentries hnodup hwf hdec
      have hnotin : name ∉ rest.map Prod.fst := by
        intro hm
        simp only [List.mem_map] at hm
        obtain ⟨⟨n2, s2⟩, hm2, hEq⟩ := hm
        simp at hEq
        subst hEq
        simp [noDupKeys] at hnodup
        exact hnodup.1 s2 hm2
      have hnoduprest : noDupKeys (rest.map Prod.fst) = true := by
        simp [noDupKeys] at hnodup
        exact hnodup.2
      have hwfhead : fieldShape.WF = true := by
        simp [fieldsWF] at hwf
        exact hwf.1
      have hwfrest : fieldsWF rest = true := by
        simp [fieldsWF] at hwf
        exact hwf.2
      cases hlook : lookupField entries name with
      | none => simp [decodeFields, hlook] at hdec
      | some v =>
          cases hdv : decode v fieldShape with
          | error e => simp [decodeFields, hlook, hdv] at hdec
          | ok w =>
              cases hrest : decodeFields entries rest with
              | error e2 => simp [decodeFields, hlook, hdv, hrest] at hdec
              | ok ws =>
                  simp [decodeFields, hlook, hdv, hrest] at hdec
                  subst hdec
                  have hhead := IH name fieldShape (by simp) hwfhead v w hdv
                  have IHrest : ∀ n2 s2, (n2, s2) ∈ rest → s2.WF = true →
                      ∀ v2 w2, decode v2 s2 = Except.ok w2 →
                      valueUnchanged s2 v2 w2 ∧ decode w2 s2 = Except.ok w2 ∧
                        conforms v2 s2 = true := by
                    intro n2 s2 hm
                    exact IH n2 s2 (List.mem_cons_of_mem _ hm)
                  have htail := ih IHrest entries ws hnoduprest hwfrest hrest
                  refine ⟨?_, ?_, ?_⟩
                  · simp only [fieldsUnchanged]
                    refine ⟨⟨v, w, hlook, lookupField_cons_self name w ws, hhead.1⟩, ?_⟩
                    exact (fieldsUnchanged_skip name w entries ws rest hnotin).mpr htail.1
                  · simp only [decodeFields, lookupField_cons_self]
                    rw [hhead.2.1]
                    rw [decodeFields_skip name w ws rest hnotin, htail.2.1]
                  · simp only [conformsFields]
                    rw [hlook]
                    simp [hhead.2.2, htail.2.2]

theorem decodeElems_main (elementShape : ShapeDescriptor)
    (IH : ∀ v w, decode v elementShape = Except.ok w →
      valueUnchanged elementShape v w ∧ decode w elementShape = Except.ok w ∧
        conforms v elementShape = true) :
    ∀ elems i delems, decodeElems elementShape elems i = Except.ok delems →
    elemsUnchanged elementShape elems delems ∧
      decodeElems elementShape delems i = Except.ok delems ∧
      conformsElems elementShape elems = true := by
  intro elems
  induction elems with
  | nil =>
      intro i delems hdec
      simp [decodeElems] at hdec
      subst hdec
      simp [elemsUnchanged, decodeElems, conformsElems]
  | cons v rest ih =>
      intro i delems hdec
      cases hdv : decode v elementShape with
      | error e => simp [decodeElems, hdv] at hdec
      | ok w =>
          cases hrest : decodeElems elementShape rest (i + 1) with
          | error e2 => simp [decodeElems, hdv, hrest] at hdec
          | ok ws =>
              simp [decodeElems, hdv, hrest] at hdec
              subst hdec
              have hhead := IH v w hdv
              have htail := ih (i + 1) ws hrest
              refine ⟨?_, ?_, ?_⟩
              · simp only [elemsUnchanged]
                exact ⟨hhead.1, htail.1⟩
              · simp only [decodeElems]
                rw [hhead.2.1, htail.2.1]
              · simp [conformsElems, hhead.2.2, htail.2.2]

theorem conformsFields_decode
    (fields : List (String × ShapeDescriptor))
    (IH : ∀ name s, (name, s) ∈ fields → ∀ v, conforms v s = true →
      ∃ w, decode v s = Except.ok w) :
    ∀ entries, conformsFields entries fields = true →
    ∃ ws, decodeFields entries fields = Except.ok ws := by
  induction fields with
  | nil => intro entries _; exact ⟨[], by simp [decodeFields]⟩
  | cons head rest ih =>
      obtain ⟨name, fieldShape⟩ := head
      intro entries hconf
      cases hlook : lookupField entries name with
      | none => simp [conformsFields, hlook] at hconf
      | some v =>
          simp [conformsFields, hlook] at hconf
          obtain ⟨w, hw⟩ := IH name fieldShape (by simp) v hconf.1
          obtain ⟨ws, hws⟩ :=
            ih (fun n2 s2 hm => IH n2 s2 (List.mem_cons_of_mem _ hm)) entries hconf.2
          exact ⟨(name, w) :: ws, by simp [decodeFields, hlook, hw, hws]⟩

theorem conformsElems_decode (elementShape : ShapeDescriptor)
    (IH : ∀ v, conforms v elementShape = true → ∃ w, decode v elementShape = Except.ok w) :
    ∀ elems i, conformsElems elementShape elems = true →
    ∃ ws, decodeElems elementShape elems i = Except.ok ws := by
  intro elems
  induction elems with
  | nil => intro i _; exact ⟨[], by simp [decodeElems]⟩
  | cons v rest ih =>
      intro i hconf
      simp [conformsElems] at hconf
      obtain ⟨w, hw⟩ := IH v hconf.1
      obtain ⟨ws, hws⟩ := ih (i + 1) hconf.2
      exact ⟨w :: ws, by simp [decodeElems, hw, hws]⟩

theorem decode_main_aux :
    ∀ (n : Nat) (shape : ShapeDescriptor), sizeOf shape ≤ n → shape.WF = true →
    ∀ v w, decode v shape = Except.ok w →
    valueUnchanged shape v w ∧ decode w shape = Except.ok w ∧ conforms v shape = true := by
  intro n
  induction n with
  | zero =>
      intro shape hle
      exact absurd hle (by have := sizeOf_shape_pos shape; omega)
  | succ n ih =>
      intro shape hle hwf v w hdec
      cases shape with
      | primitive kind =>
          by_cases hk : v.kind = kind.kindName
          · simp [decode, hk] at hdec
            subst hdec
            exact ⟨by simp [valueUnchanged], by simp [decode, hk], by simp [conforms, hk]⟩
          · simp [decode, hk] at hdec
      | objectShape fields =>
          cases v with
          | obj entries =>
              have hnodup : noDupKeys (fields.map Prod.fst) = true := by
                simp [ShapeDescriptor.WF] at hwf
                exact hwf.1
              have hfwf : fieldsWF fields = true := by
                simp [ShapeDescriptor.WF] at hwf
                exact hwf.2
              have IH : ∀ name s, (name, s) ∈ fields → s.WF = true →
                  ∀ v2 w2, decode v2 s = Except.ok w2 →
                  valueUnchanged s v2 w2 ∧ decode w2 s = Except.ok w2 ∧
                    conforms v2 s = true := by
                intro name s hm
                have hlt := sizeOf_mem_fields_lt hm
                exact ih s (by omega)
              cases hds : decodeFields entries fields with
              | error e => simp [decode, hds] at hdec
              | ok ws =>
                  simp [decode, hds] at hdec
                  subst hdec
                  have hmain := decodeFields_main fields IH entries ws hnodup hfwf hds
                  refine ⟨?_, ?_, ?_⟩
                  · simp only [valueUnchanged]
                    exact hmain.1
                  · simp [decode, hmain.2.1]
                  · simp only [conforms]
                    exact hmain.2.2
          | num m => simp [decode] at hdec
          | str s => simp [decode] at hdec
          | boolean b => simp [decode] at hdec
          | null => simp [decode] at hdec
          | arr elems => simp [decode] at hdec
      | arrayShape elementShape =>
          cases v with
          | arr elems =>
              have hewf : elementShape.WF = true := by
                simp [ShapeDescriptor.WF] at hwf
                exact hwf
              have IH : ∀ v2 w2, decode v2 elementShape = Except.ok w2 →
                  valueUnchanged elementShape v2 w2 ∧
                    decode w2 elementShape = Except.ok w2 ∧
                    conforms v2 elementShape = true := by
                have hlt := sizeOf_elem_shape_lt elementShape
                exact ih elementShape (by omega) hewf
              cases hds : decodeElems elementShape elems 0 with
              | error e => simp [decode, hds] at hdec
              | ok ws =>
                  simp [decode, hds] at hdec
                  subst hdec
                  have hmain := decodeElems_main elementShape IH elems 0 ws hds
                  refine ⟨?_, ?_, ?_⟩
                  · simp only [valueUnchanged]
                    exact hmain.1
                  · simp [decode, hmain.2.1]
                  · simp only [conforms]
                    exact hmain.2.2
          | num m => simp [decode] at hdec
          | str s => simp [decode] at hdec
          | boolean b => simp [decode] at hdec
          | null => simp [decode] at hdec
          | obj entries => simp [decode] at hdec

theorem decode_complete_aux :
    ∀ (n : Nat) (shape : ShapeDescriptor), sizeOf shape ≤ n →
    ∀ v, conforms v shape = true → ∃ w, decode v shape = Except.ok w := by
  intro n
  induction n with
  | zero =>
      intro shape hle
      exact absurd hle (by have := sizeOf_shape_pos shape; omega)
  | succ n ih =>
      intro shape hle v hconf
      cases shape with
      | primitive kind =>
          simp [conforms] at hconf
          exact ⟨v, by simp [decode, hconf]⟩
      | objectShape fields =>
          cases v with
          | obj entries =>
              simp only [conforms] at hconf
              have IH : ∀ name s, (name, s) ∈ fields → ∀ v2, conforms v2 s = true →
                  ∃ w2, decode v2 s = Except.ok w2 := by
                intro name s hm
                have hlt := sizeOf_mem_fields_lt hm
                exact ih s (by omega)
              obtain ⟨ws, hws⟩ := conformsFields_decode fields IH entries hconf
              exact ⟨.obj ws, by simp [decode, hws]⟩
          | num m => simp [conforms] at hconf
          | str s => simp [conforms] at hconf
          | boolean b => simp [conforms] at hconf
          | null => simp [conforms] at hconf
          | arr elems => simp [conforms] at hconf
      | arrayShape elementShape =>
          cases v with
          | arr elems =>
              simp only [conforms] at hconf
              have IH : ∀ v2, conforms v2 elementShape = true →
                  ∃ w2, decode v2 elementShape = Except.ok w2 := by
                have hlt := sizeOf_elem_shape_lt elementShape
                exact ih elementShape (by omega)
              obtain ⟨ws, hws⟩ := conformsElems_decode elementShape IH elems 0 hconf
              exact ⟨.arr ws, by simp [decode, hws]⟩
          | num m => simp [conforms] at hconf
          | str s => simp [conforms] at hconf
          | boolean b => simp [conforms] at hconf
          | null => simp [conforms] at hconf
          | obj entries => simp [conforms] at hconf

theorem decodeFields_append_error
    (entries : List (String × UntypedValue)) :
    ∀ pre : List (String × ShapeDescriptor),
    (∀ n2 s2, (n2, s2) ∈ pre → ∃ v2 w2, lookupField entries n2 = some v2 ∧
      decode v2 s2 = Except.ok w2) →
    ∀ tail r, decodeFields entries tail = Except.error r →
    decodeFields entries (pre ++ tail) = Except.error r := by
  intro pre
  induction pre with
  | nil => intro _ tail r h; simpa using h
  | cons head rest ih =>
      obtain ⟨n2, s2⟩ := head
      intro hpre tail r h
      obtain ⟨v2, w2, hlook, hdec⟩ := hpre n2 s2 (by simp)
      have htail := ih (fun n3 s3 hm => hpre n3 s3 (List.mem_cons_of_mem _ hm)) tail r h
      simp [decodeFields, hlook, hdec, htail]

theorem decodeElems_append_error (elementShape : ShapeDescriptor) :
    ∀ pre : List UntypedValue,
    (∀ y, y ∈ pre → ∃ w, decode y elementShape = Except.ok w) →
    ∀ i x post e, decode x elementShape = Except.error e →
    decodeElems elementShape (pre ++ x :: post) i =
      Except.error (e.nest (.index (i + pre.length))) := by
  intro pre
  induction pre with
  | nil =>
      intro _ i x post e h
      simp [decodeElems, h]
  | cons y rest ih =>
      intro hpre i x post e h
      obtain ⟨w, hw⟩ := hpre y (by simp)
      have htail := ih (fun y2 hm => hpre y2 (List.mem_cons_of_mem _ hm)) (i + 1) x post e h
      have harith : i + 1 + rest.length = i + (rest.length + 1) := by omega
      simp [decodeElems, hw, htail, harith]

theorem decodeFields_missing_error
    (entries : List (String × UntypedValue)) :
    ∀ fields : List (String × ShapeDescriptor), ∀ name s, (name, s) ∈ fields →
    lookupField entries name = none →
    ∃ e, decodeFields entries fields = Except.error e := by
  intro fields
  induction fields with
  | nil => intro name s hm; exact absurd hm (by simp)
  | cons head rest ih =>
      obtain ⟨n2, s2⟩ := head
      intro name s hm hlook
      rcases List.mem_cons.mp hm with hEq | hm2
      · obtain ⟨hn, hs⟩ := Prod.mk.injEq .. ▸ hEq
        subst hn
        exact ⟨⟨[.field name], name, ("absent")⟩, by simp [decodeFields, hlook]⟩
      · cases hlook2 : lookupField entries n2 with
        | none => exact ⟨⟨[.field n2], n2, ("absent")⟩, by simp [decodeFields, hlook2]⟩
        | some v2 =>
            cases hd2 : decode v2 s2 with
            | error e2 =>
                exact ⟨e2.nest (.field n2), by simp [decodeFields, hlook2, hd2]⟩
            | ok w2 =>
                obtain ⟨e3, he3⟩ := ih name s hm2 hlook
                exact ⟨e3, by simp [decodeFields, hlook2, hd2, he3]⟩

theorem decodeFields_keys (entries : List (String × UntypedValue)) :
    ∀ fields ws, decodeFields entries fields = Except.ok ws →
    ws.map Prod.fst = fields.map Prod.fst := by
  intro fields
  induction fields with
  | nil => intro ws h; simp [decodeFields] at h; subst h; simp
  | cons head rest ih =>
      obtain ⟨name, fieldShape⟩ := head
      intro ws h
      cases hlook : lookupField entries name with
      | none => simp [decodeFields, hlook] at h
      | some v =>
          cases hdv : decode v fieldShape with
          | error e => simp [decodeFields, hlook, hdv] at h
          | ok w =>
              cases hrest : decodeFields entries rest with
              | error e2 => simp [decodeFields, hlook, hdv, hrest] at h
              | ok ws2 =>
                  simp [decodeFields, hlook, hdv, hrest] at h
                  subst h
                  simp [ih ws2 hrest]

theorem conformsFields_of_lookup (entries : List (String × UntypedValue)) :
    ∀ fields : List (String × ShapeDescriptor),
    (∀ name s, (name, s) ∈ fields →
      ∃ v, lookupField entries name = some v ∧ conforms v s = true) →
    conformsFields entries fields = true := by
  intro fields
  induction fields with
  | nil => intro _; simp [conformsFields]
  | cons head rest ih =>
      obtain ⟨name, fieldShape⟩ := head
      intro h
      obtain ⟨v, hlook, hconf⟩ := h name fieldShape (by simp)
      have htail := ih (fun n2 s2 hm => h n2 s2 (List.mem_cons_of_mem _ hm))
      simp [conformsFields, hlook, hconf, htail]

/-- C1: Round-trip fidelity. For every well-formed ShapeDescriptor and every
UntypedValue conforming structurally to it, decode succeeds, every field and
element value of the resulting ValidatedValue equals the corresponding value of
the input unchanged, and the result conforms to the shape, so it is accessible
according to the shape without further runtime checks. -/
theorem decode_roundtrip_fidelity (shape : ShapeDescriptor) (v : UntypedValue)
    (hwf : shape.WF = true) (hconf : conforms v shape = true) :
    ∃ w, decode v shape = Except.ok w ∧ valueUnchanged shape v w ∧
      conforms w shape = true := by
  obtain ⟨w, hw⟩ := decode_complete_aux (sizeOf shape) shape le_rfl v hconf
  have hmain := decode_main_aux (sizeOf shape) shape le_rfl hwf v w hw
  have hconfw := (decode_main_aux (sizeOf shape) shape le_rfl hwf w w hmain.2.1).2.2
  exact ⟨w, hw, hmain.1, hconfw⟩

/-- Witness for C1 at the user shape of apiCalls.ts with a concrete conforming value. -/
theorem decode_roundtrip_fidelity_witness :
    ShapeDescriptor.WF
        (.objectShape [(("id"), .primitive .number), (("name"), .primitive .string)]) = true ∧
    conforms (.obj [(("id"), .num 1), (("name"), .str ("Ann"))])
        (.objectShape [(("id"), .primitive .number), (("name"), .primitive .string)]) = true ∧
    ∃ w, decode (.obj [(("id"), .num 1), (("name"), .str ("Ann"))])
        (.objectShape [(("id"), .primitive .number), (("name"), .primitive .string)]) =
        Except.ok w ∧
      valueUnchanged
        (.objectShape [(("id"), .primitive .number), (("name"), .primitive .string)])
        (.obj [(("id"), .num 1), (("name"), .str ("Ann"))]) w ∧
      conforms w
        (.objectShape [(("id"), .primitive .number), (("name"), .primitive .string)]) = true :=
  ⟨by simp [ShapeDescriptor.WF, fieldsWF, noDupKeys],
   by simp [conforms, conformsFields, lookupField, UntypedValue.kind, PrimKind.kindName],
   decode_roundtrip_fidelity _ _
     (by simp [ShapeDescriptor.WF, fieldsWF, noDupKeys])
     (by simp [conforms, conformsFields, lookupField, UntypedValue.kind, PrimKind.kindName])⟩

/-- C2: Decoding against a primitive shape succeeds exactly when the runtime kind
of the value equals the declared kind; on mismatch it fails with a
ValidationError naming the expected and actual kinds at the current (root)
path; in particular a string value decoded against the number shape fails with
a kind-mismatch error at the root path. -/
theorem decode_primitive_kind_iff (kind : PrimKind) (v : UntypedValue) :
    ((∃ w, decode v (.primitive kind) = Except.ok w) ↔ v.kind = kind.kindName) ∧
    (v.kind ≠ kind.kindName →
      decode v (.primitive kind) = Except.error ⟨[], kind.kindName, v.kind⟩) ∧
    (∀ s : String, decode (.str s) (.primitive .number) =
      Except.error ⟨[], ("number"), ("string")⟩) := by
  refine ⟨⟨?_, ?_⟩, ?_, ?_⟩
  · rintro ⟨w, hw⟩
    by_cases hk : v.kind = kind.kindName
    · exact hk
    · simp [decode, hk] at hw
  · intro hk
    exact ⟨v, by simp [decode, hk]⟩
  · intro hk
    simp [decode, hk]
  · intro s
    simp [decode, UntypedValue.kind, PrimKind.kindName]

/-- Witness for C2: a concrete string value decoded against the number shape. -/
theorem decode_primitive_kind_iff_witness :
    UntypedValue.kind (.str ("hi")) ≠ PrimKind.kindName .number ∧
    decode (.str ("hi")) (.primitive .number) =
      Except.error ⟨[], PrimKind.kindName .number, UntypedValue.kind (.str ("hi"))⟩ :=
  ⟨by simp [UntypedValue.kind, PrimKind.kindName],
   (decode_primitive_kind_iff .number (.str ("hi"))).2.1
     (by simp [UntypedValue.kind, PrimKind.kindName])⟩

/-- Counterexample to C3 as stated: the value lacking declared field b fails, but
because the earlier declared field a fails first, the reported error is a
kind-mismatch at path a, not an absent-field error at path b. -/
theorem missing_field_error_counterexample :
    decode (.obj [(("a"), .str ("x"))])
      (.objectShape [(("a"), .primitive .number), (("b"), .primitive .number)]) =
      Except.error ⟨[.field ("a")], ("number"), ("string")⟩ ∧
    lookupField [(("a"), .str ("x"))] ("b") = none ∧
    ([PathSeg.field ("a")] : List PathSeg) ≠ [PathSeg.field ("b")] ∧
    ("string") ≠ ("absent") := by
  refine ⟨?_, by simp [lookupField], by simp, by simp⟩
  simp [decode, decodeFields, lookupField, UntypedValue.kind, PrimKind.kindName,
    ValidationError.nest]

/-- C3 (amended): decoding a mapping that lacks a declared field always fails with
a ValidationError and no partial result; and when every declared field listed
before the missing one decodes successfully, the error path matches the missing
field location and the message identifies the field as absent, naming it. -/
theorem decode_missing_field_absent :
    (∀ (fields : List (String × ShapeDescriptor)) entries name s,
      (name, s) ∈ fields → lookupField entries name = none →
      ∃ e, decode (.obj entries) (.objectShape fields) = Except.error e) ∧
    (∀ (pre post : List (String × ShapeDescriptor)) entries name s,
      (∀ n2 s2, (n2, s2) ∈ pre → ∃ v2 w2, lookupField entries n2 = some v2 ∧
        decode v2 s2 = Except.ok w2) →
      lookupField entries name = none →
      decode (.obj entries) (.objectShape (pre ++ (name, s) :: post)) =
        Except.error ⟨[.field name], name, ("absent")⟩) := by
  constructor
  · intro fields entries name s hm hlook
    obtain ⟨e, he⟩ := decodeFields_missing_error entries fields name s hm hlook
    exact ⟨e, by simp [decode, he]⟩
  · intro pre post entries name s hpre hlook
    have htail : decodeFields entries ((name, s) :: post) =
        Except.error ⟨[.field name], name, ("absent")⟩ := by
      simp [decodeFields, hlook]
    have h := decodeFields_append_error entries pre hpre ((name, s) :: post) _ htail
    simp [decode, h]

/-- Witness for C3: a concrete object missing its second declared field. -/
theorem decode_missing_field_absent_witness :
    decode (.obj [(("a"), .num 1)])
      (.objectShape [(("a"), .primitive .number), (("b"), .primitive .number)]) =
      Except.error ⟨[.field ("b")], ("b"), ("absent")⟩ :=
  decode_missing_field_absent.2 [(("a"), .primitive .number)] []
    [(("a"), .num 1)] ("b") (.primitive .number)
    (by
      intro n2 s2 hm
      simp at hm
      obtain ⟨hn, hs⟩ := hm
      subst hn
      subst hs
      exact ⟨.num 1, .num 1, by simp [lookupField],
        by simp [decode, UntypedValue.kind, PrimKind.kindName]⟩)
    (by simp [lookupField])

/-- C4: Extra and unknown object fields never cause failure. A mapping containing
every declared field with conforming sub-values decodes successfully regardless
of additional undeclared keys, and the resulting ValidatedValue exposes exactly
the declared field names; concretely, decoding a two-field object against a
one-field shape succeeds and exposes only the declared field. -/
theorem decode_extra_fields_ignored :
    (∀ (fields : List (String × ShapeDescriptor)) entries,
      (∀ name s, (name, s) ∈ fields →
        ∃ v, lookupField entries name = some v ∧ conforms v s = true) →
      ∃ ws, decode (.obj entries) (.objectShape fields) = Except.ok (.obj ws) ∧
        ws.map Prod.fst = fields.map Prod.fst) ∧
    decode (.obj [(("a"), .num 1), (("b"), .num 2)])
      (.objectShape [(("a"), .primitive .number)]) =
      Except.ok (.obj [(("a"), .num 1)]) := by
  constructor
  · intro fields entries h
    have hconf : conforms (.obj entries) (.objectShape fields) = true := by
      simp only [conforms]
      exact conformsFields_of_lookup entries fields h
    obtain ⟨w, hw⟩ :=
      decode_complete_aux (sizeOf (ShapeDescriptor.objectShape fields)) _ le_rfl _ hconf
    cases hds : decodeFields entries fields with
    | error e => simp [decode, hds] at hw
    | ok ws =>
        exact ⟨ws, by simp [decode, hds], decodeFields_keys entries fields ws hds⟩
  · simp [decode, decodeFields, lookupField, UntypedValue.kind, PrimKind.kindName]

/-- Witness for C4 at a concrete object with two undeclared extra fields. -/
theorem decode_extra_fields_ignored_witness :
    ∃ ws, decode (.obj [(("a"), .num 1), (("b"), .num 2), (("c"), .str ("z"))])
      (.objectShape [(("a"), .primitive .number)]) = Except.ok (.obj ws) ∧
      ws.map Prod.fst = [(("a"), ShapeDescriptor.primitive .number)].map Prod.fst :=
  decode_extra_fields_ignored.1 [(("a"), .primitive .number)]
    [(("a"), .num 1), (("b"), .num 2), (("c"), .str ("z"))]
    (by
      intro name s hm
      simp at hm
      obtain ⟨hn, hs⟩ := hm
      subst hn
      subst hs
      exact ⟨.num 1, by simp [lookupField],
        by simp [conforms, UntypedValue.kind, PrimKind.kindName]⟩)

/-- C5: Fail-fast propagation. For an object shape whose earlier declared fields
decode successfully, the result is the ValidationError of the first declared
sub-field that fails, nested under that field name; for an array shape whose
earlier elements decode successfully, the result is the ValidationError of the
first failing element with its numeric index appended to the path. -/
theorem decode_fail_fast :
    (∀ entries (pre post : List (String × ShapeDescriptor)) name s v e,
      (∀ n2 s2, (n2, s2) ∈ pre → ∃ v2 w2, lookupField entries n2 = some v2 ∧
        decode v2 s2 = Except.ok w2) →
      lookupField entries name = some v →
      decode v s = Except.error e →
      decode (.obj entries) (.objectShape (pre ++ (name, s) :: post)) =
        Except.error (e.nest (.field name))) ∧
    (∀ elementShape (pre post : List UntypedValue) x e,
      (∀ y, y ∈ pre → ∃ w, decode y elementShape = Except.ok w) →
      decode x elementShape = Except.error e →
      decode (.arr (pre ++ x :: post)) (.arrayShape elementShape) =
        Except.error (e.nest (.index pre.length))) := by
  constructor
  · intro entries pre post name s v e hpre hlook hdv
    have htail : decodeFields entries ((name, s) :: post) =
        Except.error (e.nest (.field name)) := by
      simp [decodeFields, hlook, hdv]
    have h := decodeFields_append_error entries pre hpre ((name, s) :: post) _ htail
    simp [decode, h]
  · intro elementShape pre post x e hpre hdx
    have h := decodeElems_append_error elementShape pre hpre 0 x post e hdx
    simp only [Nat.zero_add] at h
    simp [decode, h]

/-- Witness for C5: the error of the first failing array element, at index 1. -/
theorem decode_fail_fast_witness :
    decode (.arr [.num 5, .str ("bad"), .null])
      (.arrayShape (.primitive .number)) =
      Except.error (ValidationError.nest (.index 1) ⟨[], ("number"), ("string")⟩) :=
  decode_fail_fast.2 (.primitive .number) [.num 5] [.null] (.str ("bad"))
    ⟨[], ("number"), ("string")⟩
    (by
      intro y hm
      simp at hm
      subst hm
      exact ⟨.num 5, by simp [decode, UntypedValue.kind, PrimKind.kindName]⟩)
    (by simp [decode, UntypedValue.kind, PrimKind.kindName])

/-- C6: Nested failure path correctness. For the users shape and the input whose
second array element carries a string id, decode fails with a ValidationError
whose path is exactly the three segments users, 1, id. -/
theorem decode_nested_failure_path :
    decode
      (.obj [(("users"), .arr [.obj [(("id"), .num 1)], .obj [(("id"), .str ("x"))]])])
      (.objectShape
        [(("users"), .arrayShape (.objectShape [(("id"), .primitive .number)]))]) =
      Except.error
        ⟨[.field ("users"), .index 1, .field ("id")], ("number"), ("string")⟩ := by
  simp [decode, decodeFields, decodeElems, lookupField, ValidationError.nest,
    UntypedValue.kind, PrimKind.kindName]

/-- C7: Idempotence. For every well-formed ShapeDescriptor and every UntypedValue
whose decoding succeeds with some ValidatedValue, decoding that result again,
reinterpreted as an UntypedValue, against the same shape succeeds and produces
the result itself. -/
theorem decode_idempotent (shape : ShapeDescriptor) (v w : UntypedValue)
    (hwf : shape.WF = true) (h : decode v shape = Except.ok w) :
    decode w shape = Except.ok w :=
  (decode_main_aux (sizeOf shape) shape le_rfl hwf v w h).2.1

/-- Witness for C7 at the users shape, where re-decoding reproduces the result. -/
theorem decode_idempotent_witness :
    ShapeDescriptor.WF
      (.objectShape [(("users"),
        .arrayShape (.objectShape [(("id"), .primitive .number)]))]) = true ∧
    decode (.obj [(("users"), .arr [.obj [(("id"), .num 1), (("extra"), .boolean true)]])])
      (.objectShape [(("users"),
        .arrayShape (.objectShape [(("id"), .primitive .number)]))]) =
      Except.ok (.obj [(("users"), .arr [.obj [(("id"), .num 1)]])]) ∧
    decode (.obj [(("users"), .arr [.obj [(("id"), .num 1)]])])
      (.objectShape [(("users"),
        .arrayShape (.objectShape [(("id"), .primitive .number)]))]) =
      Except.ok (.obj [(("users"), .arr [.obj [(("id"), .num 1)]])]) :=
  ⟨by simp [ShapeDescriptor.WF, fieldsWF, noDupKeys],
   by simp [decode, decodeFields, decodeElems, lookupField, UntypedValue.kind,
     PrimKind.kindName],
   decode_idempotent
     (.objectShape [(("users"),
       .arrayShape (.objectShape [(("id"), .primitive .number)]))])
     (.obj [(("users"), .arr [.obj [(("id"), .num 1), (("extra"), .boolean true)]])])
     (.obj [(("users"), .arr [.obj [(("id"), .num 1)]])])
     (by simp [ShapeDescriptor.WF, fieldsWF, noDupKeys])
     (by simp [decode, decodeFields, decodeElems, lookupField, UntypedValue.kind,
       PrimKind.kindName])⟩

end StructuralDecoder

/- Embedding of jsonParsing.ts from when-typescript-lies: the runtime dynamics of
JSON.stringify followed by JSON.parse on an event whose date field is a Date
object, and the subsequent dynamic method call date.getDate(). -/
namespace JsonParsing

/-- Runtime value of the date field: either a plain string or a Date object,
represented by its timestamp. -/
inductive JsValue where
  | jsString (s : String)
  | jsDate (timestamp : Int)
deriving DecidableEq

/-- The SomeEvent record of jsonParsing.ts: a description string and a date whose
static type claims Date but whose runtime representation is a JsValue. -/
structure SomeEvent where
  description : String
  date : JsValue
deriving DecidableEq

/-- Date.prototype.toJSON as invoked by JSON.stringify: a Date serializes to its
ISO-8601 string; only the fact that the output is a string matters here, so the
rendering of the timestamp is kept abstractly simple. -/
def dateToJSON (timestamp : Int) : String := toString timestamp ++ ("Z")

/-- The composition JSON.parse(JSON.stringify(e)) of jsonParsing.ts: strings
round-trip unchanged while a Date object comes back as its ISO string, so the
date field of the reparsed event is always a plain string. -/
def jsonStringifyThenParse (e : SomeEvent) : SomeEvent :=
  { description := e.description
    date :=
      match e.date with
      | .jsString s => .jsString s
      | .jsDate ts => .jsString (dateToJSON ts) }

/-- The dynamic call date.getDate(): defined on a Date object, but on a string it
throws, since strings have no getDate method. -/
def getDate : JsValue → Except String Int
  | .jsDate ts => .ok ts
  | .jsString _ => .error ("TypeError: deserializedEvent.date.getDate is not a function")

/-- The jsonParse function of jsonParsing.ts, parameterized by the current Date:
build someEvent, serialize and reparse it, then call getDate on the reparsed
date field before returning. -/
def jsonParse (now : Int) : Except String SomeEvent :=
  let someEvent : SomeEvent := { description := ("Birthday"), date := .jsDate now }
  let deserializedEvent : SomeEvent := jsonStringifyThenParse someEvent
  match getDate deserializedEvent.date with
  | .error e => .error e
  | .ok _ => .ok deserializedEvent

/-- C8: jsonParse never returns normally. For every invocation, stringify followed
by parse turns the date field of SomeEvent into a string, so the call
deserializedEvent.date.getDate() always throws a TypeError, and the declared
return value with a genuine Date field is never produced. -/
theorem jsonParse_always_throws :
    ∀ now : Int,
      jsonParse now =
        Except.error ("TypeError: deserializedEvent.date.getDate is not a function") ∧
      (jsonStringifyThenParse { description := ("Birthday"), date := .jsDate now }).date =
        .jsString (dateToJSON now) := by
  intro now
  exact ⟨rfl, rfl⟩

end JsonParsing

/- Embedding of NumberFacts.re from the react-typescript article: the numberFact
record and its Json.Decode decoder, which reads the JSON keys number, text and
found. -/
namespace NumberFacts

/-- Decoded JSON values as consumed by Json.Decode. -/
inductive Json where
  | jnum (n : Int)
  | jstr (s : String)
  | jbool (b : Bool)
  | jnull
  | jarr (elems : List Json)
  | jobj (fields : List (String × Json))

/-- The numberFact record of NumberFacts.re. -/
structure NumberFact where
  number : Int
  text : String
  isFound : Bool
deriving DecidableEq

/-- Exact-key lookup among the fields of a JSON object. -/
def lookupJson : List (String × Json) → String → Option Json
  | [], _ => none
  | (k, v) :: rest, name => if k = name then some v else lookupJson rest name

/-- Json.Decode.field: require an object, look up the key, and run the sub-decoder;
a missing key or a non-object input raises a decode error. -/
def decodeField {α : Type} (name : String) (dec : Json → Except String α)
    (j : Json) : Except String α :=
  match j with
  | .jobj fields =>
      match lookupJson fields name with
      | some v => dec v
      | none => .error (("missing field: ") ++ name)
  | _ => .error ("expected object")

/-- Json.Decode.int: succeed exactly on an integer JSON number. -/
def decodeInt : Json → Except String Int
  | .jnum n => .ok n
  | _ => .error ("expected int")

/-- Json.Decode.string: succeed exactly on a JSON string. -/
def decodeString : Json → Except String String
  | .jstr s => .ok s
  | _ => .error ("expected string")

/-- Json.Decode.bool: succeed exactly on a JSON boolean. -/
def decodeBool : Json → Except String Bool
  | .jbool b => .ok b
  | _ => .error ("expected bool")

/-- Decode.fact of NumberFacts.re: populate number from key number, text from key
text, and isFound from key found. -/
def fact (j : Json) : Except String NumberFact :=
  match decodeField ("number") decodeInt j with
  | .error e => .error e
  | .ok number =>
      match decodeField ("text") decodeString j with
      | .error e => .error e
      | .ok text =>
          match decodeField ("found") decodeBool j with
          | .error e => .error e
          | .ok isFound => .ok { number := number, text := text, isFound := isFound }

/-- C9: the numberFact decoder reads the JSON key found, not isFound, to populate
the record field isFound. Decoding succeeds only if keys number, text and found
are present with kinds int, string and bool, the resulting isFound equals the
value at key found, conversely such inputs decode successfully, and an input
carrying the field under the key isFound instead fails to decode. -/
theorem fact_reads_found_key :
    (∀ j f, fact j = Except.ok f →
      ∃ fields, j = .jobj fields ∧
        lookupJson fields ("number") = some (.jnum f.number) ∧
        lookupJson fields ("text") = some (.jstr f.text) ∧
        lookupJson fields ("found") = some (.jbool f.isFound)) ∧
    (∀ fields n t b,
      lookupJson fields ("number") = some (.jnum n) →
      lookupJson fields ("text") = some (.jstr t) →
      lookupJson fields ("found") = some (.jbool b) →
      fact (.jobj fields) = Except.ok ⟨n, t, b⟩) ∧
    fact (.jobj [(("number"), .jnum 5), (("text"), .jstr ("t")),
      (("isFound"), .jbool true)]) =
      Except.error (("missing field: ") ++ ("found")) := by
  refine ⟨?_, ?_, rfl⟩
  · intro j f h
    cases j with
    | jobj fields =>
        refine ⟨fields, rfl, ?_⟩
        cases h1 : lookupJson fields ("number") with
        | none => simp [fact, decodeField, h1] at h
        | some v1 =>
            cases v1 with
            | jnum n =>
                cases h2 : lookupJson fields ("text") with
                | none => simp [fact, decodeField, h1, h2, decodeInt] at h
                | some v2 =>
                    cases v2 with
                    | jstr t =>
                        cases h3 : lookupJson fields ("found") with
                        | none =>
                            simp [fact, decodeField, h1, h2, h3, decodeInt,
                              decodeString] at h
                        | some v3 =>
                            cases v3 with
                            | jbool b =>
                                simp [fact, decodeField, h1, h2, h3, decodeInt,
                                  decodeString, decodeBool] at h
                                subst h
                                simp [h1, h2, h3]
                            | jnum m =>
                                simp [fact, decodeField, h1, h2, h3, decodeInt,
                                  decodeString, decodeBool] at h
                            | jstr s =>
                                simp [fact, decodeField, h1, h2, h3, decodeInt,
                                  decodeString, decodeBool] at h
                            | jnull =>
                                simp [fact, decodeField, h1, h2, h3, decodeInt,
                                  decodeString, decodeBool] at h
                            | jarr xs =>
                                simp [fact, decodeField, h1, h2, h3, decodeInt,
                                  decodeString, decodeBool] at h
                            | jobj fs =>
                                simp [fact, decodeField, h1, h2, h3, decodeInt,
                                  decodeString, decodeBool] at h
                    | jnum m => simp [fact, decodeField, h1, h2, decodeInt, decodeString] at h
                    | jbool b => simp [fact, decodeField, h1, h2, decodeInt, decodeString] at h
                    | jnull => simp [fact, decodeField, h1, h2, decodeInt, decodeString] at h
                    | jarr xs => simp [fact, decodeField, h1, h2, decodeInt, decodeString] at h
                    | jobj fs => simp [fact, decodeField, h1, h2, decodeInt, decodeString] at h
            | jstr s => simp [fact, decodeField, h1, decodeInt] at h
            | jbool b => simp [fact, decodeField, h1, decodeInt] at h
            | jnull => simp [fact, decodeField, h1, decodeInt] at h
            | jarr xs => simp [fact, decodeField, h1, decodeInt] at h
            | jobj fs => simp [fact, decodeField, h1, decodeInt] at h
    | jnum n => simp [fact, decodeField] at h
    | jstr s => simp [fact, decodeField] at h
    | jbool b => simp [fact, decodeField] at h
    | jnull => simp [fact, decodeField] at h
    | jarr xs => simp [fact, decodeField] at h
  · intro fields n t b h1 h2 h3
    simp [fact, decodeField, h1, h2, h3, decodeInt, decodeString, decodeBool]

/-- Witness for C9 at a concrete JSON object carrying the key found. -/
theorem fact_reads_found_key_witness :
    lookupJson [(("number"), .jnum 3), (("text"), .jstr ("t")), (("found"), .jbool true)]
      ("number") = some (.jnum 3) ∧
    fact (.jobj [(("number"), .jnum 3), (("text"), .jstr ("t")),
      (("found"), .jbool true)]) = Except.ok ⟨3, ("t"), true⟩ :=
  ⟨rfl, fact_reads_found_key.2.1
    [(("number"), .jnum 3), (("text"), .jstr ("t")), (("found"), .jbool true)]
    3 ("t") true rfl rfl rfl⟩

end NumberFacts

/- Embedding of the ReasonML interop example: reasonSum from TestFunctions.re,
whose BuckleScript output returns the bitwise-or of the sum with zero, against
the plain TypeScript sum. Numbers are embedded as exact integers, the faithful
reading of JavaScript number arithmetic on safe integers. -/
namespace ReasonInterop

/-- The JavaScript ToInt32 coercion applied by the bitwise-or with zero: wrap the
integer modulo 2 to the 32 into the signed 32-bit range. -/
def toInt32 (n : Int) : Int := (n + 2 ^ 31) % 2 ^ 32 - 2 ^ 31

/-- reasonSum as compiled by BuckleScript: return the 32-bit truncation of a + b. -/
def reasonSum (a b : Int) : Int := toInt32 (a + b)

/-- The plain TypeScript sum of part_000, exact on safe integers. -/
def sum (a b : Int) : Int := a + b

/-- C10: reasonSum performs 32-bit integer addition: for all integers a and b it
equals the sum wrapped modulo 2 to the 32 into the signed 32-bit range, and it
agrees with the plain sum on every pair whose exact sum fits in 32 bits; at the
pair just past the signed 32-bit maximum the two differ, reasonSum wrapping to
the minimum while the plain sum does not. -/
theorem reasonSum_int32 :
    (∀ a b : Int,
      reasonSum a b = (a + b + 2 ^ 31) % 2 ^ 32 - 2 ^ 31 ∧
      (-(2 ^ 31) ≤ a + b → a + b < 2 ^ 31 → reasonSum a b = sum a b)) ∧
    reasonSum (2 ^ 31 - 1) 1 = -(2 ^ 31) ∧
    sum (2 ^ 31 - 1) 1 = 2 ^ 31 := by
  refine ⟨?_, by decide, by decide⟩
  intro a b
  refine ⟨rfl, ?_⟩
  intro h1 h2
  simp only [reasonSum, toInt32, sum]
  omega

/-- Witness for C10 at a concrete in-range pair. -/
theorem reasonSum_int32_witness :
    -(2 ^ 31) ≤ (1 : Int) + 2 ∧ (1 : Int) + 2 < 2 ^ 31 ∧ reasonSum 1 2 = sum 1 2 :=
  ⟨by decide, by decide, (reasonSum_int32.1 1 2).2 (by decide) (by decide)⟩

end ReasonInterop
